import Mathlib

/-! Shallow embedding of the LikeLocker media fetcher (src/main.go) and proofs
about its cache, retrieval, backfill and watch-mode behaviour. -/

/-- UTF-8 encoding of one character as its list of byte values
(Go's string-to-byte-slice conversion, used by sha256.Sum256([]byte(url))). -/
def encodeChar (c : Char) : List Nat :=
  let n := c.toNat
  if n < 128 then [n]
  else if n < 2048 then [192 + n / 64, 128 + n % 64]
  else if n < 65536 then [224 + n / 4096, 128 + (n / 64) % 64, 128 + n % 64]
  else [240 + n / 262144, 128 + (n / 4096) % 64, 128 + (n / 64) % 64, 128 + n % 64]

/-- UTF-8 bytes of a string. -/
def utf8Bytes (s : String) : List Nat :=
  (s.toList.map encodeChar).flatten

/-- Truncation to a 32-bit word. -/
def w32 (x : Nat) : Nat := x % 4294967296

/-- 32-bit right rotation. -/
def rotr32 (n x : Nat) : Nat := w32 ((x >>> n) ||| (x <<< (32 - n)))

def bsig0 (x : Nat) : Nat := rotr32 2 x ^^^ rotr32 13 x ^^^ rotr32 22 x
def bsig1 (x : Nat) : Nat := rotr32 6 x ^^^ rotr32 11 x ^^^ rotr32 25 x
def ssig0 (x : Nat) : Nat := rotr32 7 x ^^^ rotr32 18 x ^^^ (x >>> 3)
def ssig1 (x : Nat) : Nat := rotr32 17 x ^^^ rotr32 19 x ^^^ (x >>> 10)

/-- The SHA-256 round constants (FIPS 180-4), written in decimal. -/
def sha256K : List Nat :=
  [1116352408, 1899447441, 3049323471, 3921009573, 961987163, 1508970993,
   2453635748, 2870763221, 3624381080, 310598401, 607225278, 1426881987,
   1925078388, 2162078206, 2614888103, 3248222580, 3835390401, 4022224774,
   264347078, 604807628, 770255983, 1249150122, 1555081692, 1996064986,
   2554220882, 2821834349, 2952996808, 3210313671, 3336571891, 3584528711,
   113926993, 338241895, 666307205, 773529912, 1294757372, 1396182291,
   1695183700, 1986661051, 2177026350, 2456956037, 2730485921, 2820302411,
   3259730800, 3345764771, 3516065817, 3600352804, 4094571909, 275423344,
   430227734, 506948616, 659060556, 883997877, 958139571, 1322822218,
   1537002063, 1747873779, 1955562222, 2024104815, 2227730452, 2361852424,
   2428436474, 2756734187, 3204031479, 3329325298]

/-- The SHA-256 initial hash value (FIPS 180-4), written in decimal. -/
def sha256H0 : List Nat :=
  [1779033703, 3144134277, 1013904242, 2773480762,
   1359893119, 2600822924, 528734635, 1541459225]

/-- Packs bytes into big-endian 32-bit words. -/
def bytesToWords : List Nat → List Nat
  | a :: b :: c :: d :: rest => (a * 16777216 + b * 65536 + c * 256 + d) :: bytesToWords rest
  | _ => []

/-- Extends a 16-word message block to the 64-word message schedule
(runs the given number of extension steps). -/
def extendLoop : Nat → List Nat → List Nat
  | 0, acc => acc
  | n + 1, acc =>
    let t := acc.length
    let wt := w32 (ssig1 (acc.getD (t - 2) 0) + acc.getD (t - 7) 0 +
                   ssig0 (acc.getD (t - 15) 0) + acc.getD (t - 16) 0)
    extendLoop n (acc ++ [wt])

/-- The SHA-256 compression rounds over paired round constants and schedule words. -/
def compressLoop : List Nat → List Nat → List Nat → List Nat
  | k :: ks, w :: ws, [a, b, c, d, e, f, g, h] =>
    let ch := (e &&& f) ^^^ ((e ^^^ 4294967295) &&& g)
    let maj := (a &&& b) ^^^ (a &&& c) ^^^ (b &&& c)
    let t1 := w32 (h + bsig1 e + ch + k + w)
    let t2 := w32 (bsig0 a + maj)
    compressLoop ks ws [w32 (t1 + t2), a, b, c, w32 (d + t1), e, f, g]
  | _, _, hs => hs

/-- Processes the given number of 64-byte chunks of an already padded message. -/
def sha256core : Nat → List Nat → List Nat → List Nat
  | 0, _, hs => hs
  | n + 1, bytes, hs =>
    let ws := extendLoop 48 (bytesToWords (bytes.take 64))
    let out := compressLoop sha256K ws hs
    let hs2 := (hs.zip out).map (fun p => w32 (p.1 + p.2))
    sha256core n (bytes.drop 64) hs2

/-- The 8-byte big-endian encoding of the message bit length. -/
def lenBytes64 (n : Nat) : List Nat :=
  [(n >>> 56) % 256, (n >>> 48) % 256, (n >>> 40) % 256, (n >>> 32) % 256,
   (n >>> 24) % 256, (n >>> 16) % 256, (n >>> 8) % 256, n % 256]

/-- SHA-256 of a byte sequence, as the list of eight 32-bit hash words. -/
def sha256bytes (msg : List Nat) : List Nat :=
  let padded := msg ++ (128 :: List.replicate ((120 - (msg.length + 1) % 64) % 64) 0) ++
                lenBytes64 (msg.length * 8)
  sha256core (padded.length / 64) padded sha256H0

def hexDigitChar (n : Nat) : Char := if n < 10 then Char.ofNat (48 + n) else Char.ofNat (87 + n)

def byteToHex (b : Nat) : List Char := [hexDigitChar (b / 16), hexDigitChar (b % 16)]

def wordToBytes (w : Nat) : List Nat := [(w >>> 24) % 256, (w >>> 16) % 256, (w >>> 8) % 256, w % 256]

/-- Hex-encoded SHA-256 of a string's UTF-8 bytes: the contents of Go's
`hex.EncodeToString(sha256.Sum256([]byte(s))[:])`. -/
def sha256hex (s : String) : String :=
  String.mk ((((sha256bytes (utf8Bytes s)).map wordToBytes).flatten.map byteToHex).flatten)

/-- Does the list start with the given pattern? -/
def listStartsWith : List Char → List Char → Bool
  | [], _ => true
  | _ :: _, [] => false
  | p :: ps, c :: cs => p = c && listStartsWith ps cs

/-- Does the list contain the given pattern as a contiguous run? -/
def listHasSub (pat : List Char) : List Char → Bool
  | [] => listStartsWith pat []
  | c :: cs => listStartsWith pat (c :: cs) || listHasSub pat cs

/-- Go's strings.Contains. -/
def strContains (s pat : String) : Bool := listHasSub pat.toList s.toList

/-- Scans characters (given in reverse order) for Go's filepath.Ext:
stops at a slash, returns the suffix from the last dot. -/
def goExtLoop : List Char → List Char → String
  | [], _ => ""
  | c :: rest, acc =>
    if c = '/' then "" else if c = '.' then String.mk (c :: acc) else goExtLoop rest (c :: acc)

/-- Go's filepath.Ext: the suffix beginning at the final dot in the final
slash-separated element of the string; empty if there is no dot. -/
def goExt (s : String) : String := goExtLoop s.toList.reverse []

/-- One image of an images embed; only the Fullsize URL is consumed. -/
structure ViewImage where
  fullsize : String
deriving DecidableEq

/-- bsky.EmbedImages_View, restricted to the consumed field. -/
structure EmbedImagesView where
  images : List ViewImage
deriving DecidableEq

/-- bsky.EmbedVideo_View, restricted to the consumed field. -/
structure EmbedVideoView where
  playlist : String
deriving DecidableEq

/-- The nested media of a record-with-media embed. -/
structure MediaView where
  embedImagesView : Option EmbedImagesView
  embedVideoView : Option EmbedVideoView
deriving DecidableEq

/-- bsky.EmbedRecordWithMedia_View, restricted to the consumed field. -/
structure EmbedRecordWithMediaView where
  media : Option MediaView
deriving DecidableEq

/-- bsky.FeedDefs_PostView_Embed: the three embed shapes the program inspects. -/
structure Embed where
  embedImagesView : Option EmbedImagesView
  embedVideoView : Option EmbedVideoView
  embedRecordWithMediaView : Option EmbedRecordWithMediaView
deriving DecidableEq

/-- One feed item: its URI and optional embed. -/
structure Post where
  uri : String
  embed : Option Embed
deriving DecidableEq

/-- One response of bsky.FeedGetActorLikes: the item list and the optional
continuation cursor. -/
structure FeedPage where
  feed : List Post
  cursor : Option String
deriving DecidableEq

/-- A direct entry of the download directory (os.ReadDir result). -/
structure DirEntry where
  name : String
  isDir : Bool
deriving DecidableEq

/-- Outcome of one direct-fetch attempt in downloadFile: http.Get error,
non-OK status, os.Create failure, io.Copy failure, or full success. -/
inductive NetOutcome where
  | ok
  | getErr
  | badStatus (status : String)
  | createErr
  | copyErr
deriving DecidableEq

/-- Observable side effects of the engine, in order of occurrence. -/
inductive Effect where
  | feedFetch (cursor : String)
  | httpGet (url : String)
  | httpPost (url : String) (body : String)
  | ffmpegRun (input : String) (output : String)
  | createFile (filename : String)
  | saveCacheWrite
  | readDir
deriving DecidableEq

/-- The environment: outcomes of the external collaborators, keyed by the
state's running call counter so every mix of successes and failures over a
run is expressible. -/
structure Env where
  net : Nat → String → NetOutcome
  ffmpeg : Nat → String → Bool
  save : Nat → Bool
  feed : Nat → String → Except String FeedPage

/-- The mutable state of a MediaFetcher run: the in-memory cache set, the
download directory's entries, the persisted cache listing (none when the file
is missing), the download directory path, and the call counter consumed by
the environment oracles. -/
structure FetcherState where
  downloadedFiles : List String
  storage : List DirEntry
  cacheFileContents : Option (List String)
  downloadDir : String
  tick : Nat
deriving DecidableEq

/-- Result of a cache operation: next state, optional error, effects. -/
structure OpResult where
  state : FetcherState
  err : Option String
  effects : List Effect
deriving DecidableEq

/-- Result of a media retrieval: files retrieved (0 or 1), optional error,
next state, effects. -/
structure DLResult where
  count : Int
  err : Option String
  state : FetcherState
  effects : List Effect
deriving DecidableEq

/-- Map insertion for the set of downloaded files (Go map set to true). -/
def insertFile (f : String) (s : List String) : List String :=
  if f ∈ s then s else s ++ [f]

/-- isDownloaded: lookup of a filename in the in-memory cache. -/
def isDownloaded (st : FetcherState) (f : String) : Bool :=
  st.downloadedFiles.contains f

/-- saveCache: rewrites the persisted listing wholesale from the in-memory
set (one filename per line); on an I/O failure the listing is left unchanged
in this model and an error is returned. -/
def saveCache (env : Env) (st : FetcherState) : OpResult :=
  if env.save st.tick then
    ⟨{st with cacheFileContents := some st.downloadedFiles, tick := st.tick + 1}, none, [.saveCacheWrite]⟩
  else
    ⟨{st with tick := st.tick + 1}, some "cache save failed", [.saveCacheWrite]⟩

/-- markDownloaded: adds a filename to the cache and saves it. -/
def markDownloaded (env : Env) (st : FetcherState) (f : String) : OpResult :=
  saveCache env {st with downloadedFiles := insertFile f st.downloadedFiles}

/-- loadCache: reads the persisted listing into the in-memory map; a missing
file is not an error; each line is trimmed and empty lines are skipped. -/
def loadCache (st : FetcherState) : FetcherState :=
  match st.cacheFileContents with
  | none => st
  | some lines =>
    {st with downloadedFiles :=
      lines.foldl (fun acc line =>
        let f := line.trim
        if f = "" then acc else insertFile f acc) st.downloadedFiles}

/-- One step of syncCacheFromDirectory's scan: skip directories, skip names
already in the set, otherwise add the name and count it. -/
def syncStep (acc : List String × Nat) (e : DirEntry) : List String × Nat :=
  if e.isDir then acc
  else if acc.1.contains e.name then acc
  else (acc.1 ++ [e.name], acc.2 + 1)

/-- syncCacheFromDirectory: scans the download directory, adds any existing
plain file's name to the cache, and persists the set when anything was added. -/
def syncCacheFromDirectory (env : Env) (st : FetcherState) : OpResult :=
  let p := st.storage.foldl syncStep (st.downloadedFiles, 0)
  let st1 := {st with downloadedFiles := p.1}
  if 0 < p.2 then
    let q := saveCache env st1
    ⟨q.state, q.err.map (fun e => "failed to save cache after sync: " ++ e), .readDir :: q.effects⟩
  else ⟨st1, none, [.readDir]⟩

/-- The cache-initialisation part of NewMediaFetcher: loadCache followed by
syncCacheFromDirectory. -/
def initCache (env : Env) (st : FetcherState) : OpResult :=
  syncCacheFromDirectory env (loadCache st)

/-- The extension-resolution block of downloadFile: filepath.Ext of the URL
string; when empty, the m3u8 marker check, then the media-kind defaults. -/
def resolveExt (url mediaType : String) : String :=
  let ext0 := goExt url
  if ext0 = "" then
    if strContains url "m3u8" then ".m3u8"
    else if mediaType = "image" then ".png"
    else ".mp4"
  else ext0

/-- The filename downloadFile resolves for a URL: hex SHA-256 of the URL
bytes concatenated with the resolved extension. -/
def downloadFileFilename (url mediaType : String) : String :=
  sha256hex url ++ resolveExt url mediaType

/-- downloadFile: resolves the content-addressed filename, short-circuits on
a cache hit, otherwise performs the HTTP fetch, creates the file, streams the
body into it and records the filename in the cache (a cache-save failure is
only a warning). -/
def downloadFile (env : Env) (st : FetcherState) (url mediaType : String) : DLResult :=
  let filename := downloadFileFilename url mediaType
  if isDownloaded st filename then ⟨0, none, st, []⟩
  else
    let outcome := env.net st.tick url
    let st1 : FetcherState := {st with tick := st.tick + 1}
    match outcome with
    | .getErr => ⟨0, some "failed to download", st1, [.httpGet url]⟩
    | .badStatus s => ⟨0, some ("bad status: " ++ s), st1, [.httpGet url]⟩
    | .createErr => ⟨0, some "failed to create file", st1, [.httpGet url]⟩
    | .copyErr =>
      ⟨0, some "failed to write file",
        {st1 with storage := st1.storage ++ [⟨filename, false⟩]},
        [.httpGet url, .createFile filename]⟩
    | .ok =>
      let st2 : FetcherState := {st1 with storage := st1.storage ++ [⟨filename, false⟩]}
      let r := markDownloaded env st2 filename
      ⟨1, none, r.state, [.httpGet url, .createFile filename] ++ r.effects⟩

/-- downloadVideo: nothing to do on an empty playlist; otherwise resolves the
hash-plus-mp4 filename, short-circuits on a cache hit, and otherwise invokes
ffmpeg on the playlist with the output path, recording the filename on a zero
exit. -/
def downloadVideo (env : Env) (st : FetcherState) (video : EmbedVideoView) : DLResult :=
  if video.playlist = "" then ⟨0, none, st, []⟩
  else
    let filename := sha256hex video.playlist ++ ".mp4"
    if isDownloaded st filename then ⟨0, none, st, []⟩
    else
      let outputPath := st.downloadDir ++ "/" ++ filename
      let okRun := env.ffmpeg st.tick video.playlist
      let st1 : FetcherState := {st with tick := st.tick + 1}
      if okRun then
        let st2 : FetcherState := {st1 with storage := st1.storage ++ [⟨filename, false⟩]}
        let r := markDownloaded env st2 filename
        ⟨1, none, r.state, [.ffmpegRun video.playlist outputPath] ++ r.effects⟩
      else ⟨0, some "ffmpeg failed", st1, [.ffmpegRun video.playlist outputPath]⟩

/-- The loop of downloadImages: stops once the running count reaches the
limit; a downloadFile error is returned at once with the count so far (the
remaining images are not visited); otherwise the count is accumulated. -/
def downloadImagesLoop (env : Env) (limit : Int) :
    List ViewImage → Int → FetcherState → DLResult
  | [], count, st => ⟨count, none, st, []⟩
  | img :: rest, count, st =>
    if limit ≤ count then ⟨count, none, st, []⟩
    else
      let r := downloadFile env st img.fullsize "image"
      match r.err with
      | some e => ⟨count, some e, r.state, r.effects⟩
      | none =>
        let r2 := downloadImagesLoop env limit rest (count + r.count) r.state
        ⟨r2.count, r2.err, r2.state, r.effects ++ r2.effects⟩

/-- downloadImages: walks the image list with a fresh running count. -/
def downloadImages (env : Env) (images : List ViewImage) (limit : Int)
    (st : FetcherState) : DLResult :=
  downloadImagesLoop env limit images 0 st

/-- downloadPostMedia: retrieves every medium of one post's embed (images,
video, then the nested media of a record-with-media embed), returning early
with the running count as soon as one retrieval errors. -/
def downloadPostMedia (env : Env) (st : FetcherState) (embed : Option Embed) : DLResult :=
  match embed with
  | none => ⟨0, none, st, []⟩
  | some e =>
    let r1 : DLResult :=
      match e.embedImagesView with
      | some iv => downloadImages env iv.images (iv.images.length : Int) st
      | none => ⟨0, none, st, []⟩
    match r1.err with
    | some er => ⟨r1.count, some er, r1.state, r1.effects⟩
    | none =>
      let r2 : DLResult :=
        match e.embedVideoView with
        | some v => downloadVideo env r1.state v
        | none => ⟨0, none, r1.state, []⟩
      match r2.err with
      | some er => ⟨r1.count + r2.count, some er, r2.state, r1.effects ++ r2.effects⟩
      | none =>
        match e.embedRecordWithMediaView with
        | some rwm =>
          match rwm.media with
          | some m =>
            let r3 : DLResult :=
              match m.embedImagesView with
              | some iv => downloadImages env iv.images (iv.images.length : Int) r2.state
              | none => ⟨0, none, r2.state, []⟩
            match r3.err with
            | some er =>
              ⟨r1.count + r2.count + r3.count, some er, r3.state,
                r1.effects ++ r2.effects ++ r3.effects⟩
            | none =>
              let r4 : DLResult :=
                match m.embedVideoView with
                | some v => downloadVideo env r3.state v
                | none => ⟨0, none, r3.state, []⟩
              ⟨r1.count + r2.count + r3.count + r4.count, r4.err, r4.state,
                r1.effects ++ r2.effects ++ r3.effects ++ r4.effects⟩
          | none => ⟨r1.count + r2.count, none, r2.state, r1.effects ++ r2.effects⟩
        | none => ⟨r1.count + r2.count, none, r2.state, r1.effects ++ r2.effects⟩

/-- notify: a push to ntfy.sh when a topic is configured, nothing otherwise. -/
def notifyEffects (topic message : String) : List Effect :=
  if topic = "" then [] else [.httpPost ("https://ntfy.sh/" ++ topic) message]

/-- The per-new-item body of WatchLikes' poll loop: retrieve the post's
media; on an error only log; otherwise notify when something was retrieved. -/
def handleNewPost (env : Env) (topic : String) (p : Post) (st : FetcherState) :
    FetcherState × List Effect :=
  let r := downloadPostMedia env st p.embed
  match r.err with
  | some _ => (r.state, r.effects)
  | none =>
    if 0 < r.count then
      (r.state, r.effects ++
        notifyEffects topic ("Downloaded " ++ toString r.count ++ " file(s) from new like"))
    else (r.state, r.effects)

/-- Result of processing one fetched page in watch mode: the seen set, the
fetcher state, the effects, and the URIs treated as newly seen, in order. -/
structure WatchResult where
  seen : List String
  state : FetcherState
  effects : List Effect
  news : List String
deriving DecidableEq

/-- The inner loop of a WatchLikes poll cycle: skip already-seen items, mark
the rest seen and handle each. -/
def processNewPosts (env : Env) (topic : String) :
    List Post → List String → FetcherState → WatchResult
  | [], seen, st => ⟨seen, st, [], []⟩
  | p :: rest, seen, st =>
    if p.uri ∈ seen then processNewPosts env topic rest seen st
    else
      let pr := handleNewPost env topic p st
      let r := processNewPosts env topic rest (p.uri :: seen) pr.1
      ⟨r.seen, r.state, pr.2 ++ r.effects, p.uri :: r.news⟩

/-- The seeding pass of WatchLikes: every item of the initial page is marked
seen. -/
def watchSeed (page : List Post) : List String :=
  page.foldl (fun s p => if p.uri ∈ s then s else p.uri :: s) []

/-- One watch-mode poll cycle over a fetched page. -/
def watchCycle (env : Env) (topic : String) (page : List Post)
    (seen : List String) (st : FetcherState) : WatchResult :=
  processNewPosts env topic page seen st

/-- The poll loop of WatchLikes, bounded by fuel (the number of cycles): a
feed-request failure is logged and the loop continues at the next interval. -/
def watchLoop (env : Env) (topic : String) :
    Nat → List String → FetcherState → List String × FetcherState × List Effect
  | 0, seen, st => (seen, st, [])
  | fuel + 1, seen, st =>
    match env.feed st.tick "" with
    | .error _ =>
      let r := watchLoop env topic fuel seen {st with tick := st.tick + 1}
      (r.1, r.2.1, .feedFetch "" :: r.2.2)
    | .ok resp =>
      let c := watchCycle env topic resp.feed seen {st with tick := st.tick + 1}
      let r := watchLoop env topic fuel c.seen c.state
      (r.1, r.2.1, .feedFetch "" :: c.effects ++ r.2.2)

/-- WatchLikes: seeds the seen set from one page, then polls; an error on the
seeding fetch is fatal. -/
def WatchLikes (env : Env) (topic : String) (fuel : Nat) (st : FetcherState) :
    Except String (List String × FetcherState × List Effect) :=
  match env.feed st.tick "" with
  | .error e => .error ("failed to fetch initial likes: " ++ e)
  | .ok resp =>
    .ok (watchLoop env topic fuel (watchSeed resp.feed) {st with tick := st.tick + 1})

/-- Running count, state and effects of one backfill processing step. -/
structure WalkOut where
  count : Int
  state : FetcherState
  effects : List Effect
deriving DecidableEq

/-- The images branch of FetchAndDownload's per-post body: downloadImages is
called with the remaining budget and its count is added (also when it
reported an error, which is only printed). -/
def doImages (env : Env) (limit count : Int) (st : FetcherState)
    (iv : Option EmbedImagesView) : WalkOut :=
  match iv with
  | some iv =>
    let r := downloadImages env iv.images (limit - count) st
    ⟨count + r.count, r.state, r.effects⟩
  | none => ⟨count, st, []⟩

/-- The video branch of FetchAndDownload's per-post body: guarded by the
budget check; the error is only printed. -/
def doVideo (env : Env) (limit count : Int) (st : FetcherState)
    (v : Option EmbedVideoView) : WalkOut :=
  match v with
  | some v =>
    if count < limit then
      let r := downloadVideo env st v
      ⟨count + r.count, r.state, r.effects⟩
    else ⟨count, st, []⟩
  | none => ⟨count, st, []⟩

/-- The record-with-media branch of FetchAndDownload's per-post body: guarded
by the budget check, then the nested media's images and video branches. -/
def doRecordWithMedia (env : Env) (limit count : Int) (st : FetcherState)
    (rwm : Option EmbedRecordWithMediaView) : WalkOut :=
  match rwm with
  | some rwm =>
    if count < limit then
      match rwm.media with
      | some m =>
        let r1 := doImages env limit count st m.embedImagesView
        let r2 := doVideo env limit r1.count r1.state m.embedVideoView
        ⟨r2.count, r2.state, r1.effects ++ r2.effects⟩
      | none => ⟨count, st, []⟩
    else ⟨count, st, []⟩
  | none => ⟨count, st, []⟩

/-- FetchAndDownload's per-post body: skip posts without an embed, then the
three embed branches in source order. -/
def processPost (env : Env) (limit count : Int) (st : FetcherState) (p : Post) : WalkOut :=
  match p.embed with
  | none => ⟨count, st, []⟩
  | some e =>
    let r1 := doImages env limit count st e.embedImagesView
    let r2 := doVideo env limit r1.count r1.state e.embedVideoView
    let r3 := doRecordWithMedia env limit r2.count r2.state e.embedRecordWithMediaView
    ⟨r3.count, r3.state, r1.effects ++ r2.effects ++ r3.effects⟩

/-- Result of the per-page post loop: the done flag records the early return
taken when the budget is reached mid-page. -/
structure PostsResult where
  count : Int
  state : FetcherState
  effects : List Effect
  done : Bool
deriving DecidableEq

/-- FetchAndDownload's loop over one page's posts: before each post the
budget is checked (reaching it returns from the whole walk). -/
def processPosts (env : Env) (limit : Int) :
    List Post → Int → FetcherState → PostsResult
  | [], count, st => ⟨count, st, [], false⟩
  | p :: rest, count, st =>
    if limit ≤ count then ⟨count, st, [], true⟩
    else
      let r1 := processPost env limit count st p
      let r := processPosts env limit rest r1.count r1.state
      ⟨r.count, r.state, r1.effects ++ r.effects, r.done⟩

instance : DecidableEq (Except String Unit)
  | .ok (), .ok () => .isTrue rfl
  | .error a, .error b =>
    if h : a = b then .isTrue (congrArg Except.error h)
    else .isFalse (fun he => h (Except.error.inj he))
  | .ok _, .error _ => .isFalse (fun h => Except.noConfusion h)
  | .error _, .ok _ => .isFalse (fun h => Except.noConfusion h)

/-- Result of a backfill run: the returned value, the final download count,
the final state and the effects. -/
structure RunResult where
  res : Except String Unit
  count : Int
  state : FetcherState
  effects : List Effect
deriving DecidableEq

/-- The page loop of FetchAndDownload, bounded by fuel (the number of page
fetches): runs while the count is below the limit; a feed-request failure
aborts the walk; an empty page, a reached budget or a missing/empty cursor
ends it normally. -/
def fetchLoop (env : Env) (limit : Int) :
    Nat → Int → String → FetcherState → RunResult
  | 0, count, _, st => ⟨.ok (), count, st, []⟩
  | fuel + 1, count, cursor, st =>
    if count < limit then
      match env.feed st.tick cursor with
      | .error e =>
        ⟨.error ("failed to fetch likes: " ++ e), count, {st with tick := st.tick + 1},
          [.feedFetch cursor]⟩
      | .ok resp =>
        let st1 : FetcherState := {st with tick := st.tick + 1}
        if resp.feed.isEmpty then ⟨.ok (), count, st1, [.feedFetch cursor]⟩
        else
          let r := processPosts env limit resp.feed count st1
          if r.done then ⟨.ok (), r.count, r.state, .feedFetch cursor :: r.effects⟩
          else
            match resp.cursor with
            | none => ⟨.ok (), r.count, r.state, .feedFetch cursor :: r.effects⟩
            | some c =>
              if c = "" then ⟨.ok (), r.count, r.state, .feedFetch cursor :: r.effects⟩
              else
                let r2 := fetchLoop env limit fuel r.count c r.state
                ⟨r2.res, r2.count, r2.state, .feedFetch cursor :: r.effects ++ r2.effects⟩
    else ⟨.ok (), count, st, []⟩

/-- FetchAndDownload: the one-shot backfill pass, starting from an empty
cursor and a zero count. The actor and page size are fixed inside the
environment's feed oracle. -/
def FetchAndDownload (env : Env) (limit : Int) (fuel : Nat) (st : FetcherState) : RunResult :=
  fetchLoop env limit fuel 0 "" st

/-- Drops every character up to and including the first scheme separator. -/
def dropScheme : List Char → List Char
  | ':' :: '/' :: '/' :: rest => rest
  | _ :: rest => dropScheme rest
  | [] => []

/-- The path component of a URL: the part after the authority (following
a scheme-separator when present) from its first slash, up to the query or
fragment. -/
def specUrlPath (url : String) : String :=
  let cs := url.toList
  let rest := if listHasSub (String.toList "://") cs then dropScheme cs else cs
  let path := rest.dropWhile (fun c => c ≠ '/')
  String.mk (path.takeWhile (fun c => c ≠ '?' && c ≠ '#'))

/-- Stated from the spec sentence for the extension rule: the extension of
the URL's path when it carries one, else the m3u8 manifest extension, else
the kind-specific default. Compared against resolveExt, which the code
computes from the whole URL string. -/
def specResolveExt (url mediaType : String) : String :=
  let ext0 := goExt (specUrlPath url)
  if ext0 = "" then
    if strContains url "m3u8" then ".m3u8"
    else if mediaType = "image" then ".png"
    else ".mp4"
  else ext0

/-- The cache operations named by the monotonicity claim. -/
inductive CacheOp where
  | load
  | reconcile
  | containsQuery (f : String)
  | record (f : String)

/-- Applies one cache operation to the state (a containment query leaves it
unchanged). -/
def applyOp (env : Env) (st : FetcherState) : CacheOp → FetcherState
  | .load => loadCache st
  | .reconcile => (syncCacheFromDirectory env st).state
  | .containsQuery _ => st
  | .record f => (markDownloaded env st f).state

/-- Applies a sequence of cache operations in order. -/
def applyOps (env : Env) : List CacheOp → FetcherState → FetcherState
  | [], st => st
  | op :: rest, st => applyOps env rest (applyOp env st op)

/-- An all-success environment whose feed is exhausted at once. -/
def env0 : Env := ⟨fun _ _ => .ok, fun _ _ => true, fun _ => true, fun _ _ => .ok ⟨[], none⟩⟩

/-- A fresh fetcher state: empty cache, empty directory, missing listing. -/
def st0 : FetcherState := ⟨[], [], none, "d", 0⟩

/-- An environment whose single feed page holds one post with two images,
the first of which always fails with a bad HTTP status. -/
def badFirstImageEnv : Env :=
  ⟨fun _ url => if url = "u1" then .badStatus "500" else .ok,
   fun _ _ => true, fun _ => true,
   fun _ _ => .ok ⟨[⟨"p1", some ⟨some ⟨[⟨"u1"⟩, ⟨"u2"⟩]⟩, none, none⟩⟩], none⟩⟩

/-- An environment where every direct fetch succeeds and every ffmpeg
invocation fails. -/
def ffmpegFailEnv : Env :=
  ⟨fun _ _ => .ok, fun _ _ => false, fun _ => true, fun _ _ => .error "unused"⟩

/-- A post carrying one image and one video. -/
def imageAndVideoPost : Post := ⟨"p1", some ⟨some ⟨[⟨"u1"⟩]⟩, some ⟨"v1"⟩, none⟩⟩

/-- A startup state with a missing listing and one plain file plus one
subdirectory in the download directory. -/
def dirOnlySt : FetcherState := ⟨[], [⟨"abc123.png", false⟩, ⟨"sub", true⟩], none, "d", 0⟩

/-- A state whose cache already holds the resolved filenames of one image
URL and one video playlist. -/
def hitSt : FetcherState :=
  ⟨[downloadFileFilename "http://x/a.png" "image", sha256hex "v1" ++ ".mp4"], [], none, "d", 0⟩

/-- A post without any embed, for watch-mode witnesses. -/
def barePost (u : String) : Post := ⟨u, none⟩

/-- The seeding page of the watch-novelty scenario: items a, b, c. -/
def pageP0 : List Post := [barePost "a", barePost "b", barePost "c"]

/-- The polled page of the watch-novelty scenario: items b, c, d. -/
def pageP1 : List Post := [barePost "b", barePost "c", barePost "d"]

/-- Membership in the set grows under insertFile. -/
theorem insertFile_subset (f : String) (s : List String) : s ⊆ insertFile f s := by
  intro g hg
  unfold insertFile
  split
  · exact hg
  · exact List.mem_append_left _ hg

/-- Membership after insertFile. -/
theorem mem_insertFile (f g : String) (s : List String) :
    g ∈ insertFile f s ↔ g = f ∨ g ∈ s := by
  unfold insertFile
  split
  · rename_i h
    constructor
    · exact Or.inr
    · rintro (rfl | hg)
      · exact h
      · exact hg
  · simp [or_comm]

/-- insertFile preserves the no-duplicates invariant of the map keys. -/
theorem insertFile_nodup (f : String) (s : List String) (h : s.Nodup) :
    (insertFile f s).Nodup := by
  unfold insertFile
  split
  · exact h
  · rename_i hf
    simpa [List.nodup_append] using ⟨h, hf⟩

/-- saveCache never changes the in-memory set. -/
theorem saveCache_files (env : Env) (st : FetcherState) :
    (saveCache env st).state.downloadedFiles = st.downloadedFiles := by
  unfold saveCache
  split <;> rfl

/-- markDownloaded inserts exactly the given filename in memory. -/
theorem markDownloaded_files (env : Env) (st : FetcherState) (f : String) :
    (markDownloaded env st f).state.downloadedFiles = insertFile f st.downloadedFiles := by
  unfold markDownloaded
  rw [saveCache_files]

/-- The listing-load fold only grows the accumulated set. -/
theorem loadFold_subset (lines : List String) :
    ∀ acc : List String,
      acc ⊆ lines.foldl (fun acc line =>
        let f := line.trim
        if f = "" then acc else insertFile f acc) acc := by
  induction lines with
  | nil => intro acc; exact fun _ h => h
  | cons l ls ih =>
    intro acc
    rw [List.foldl_cons]
    have h1 : acc ⊆ (if l.trim = "" then acc else insertFile l.trim acc) := by
      split
      · exact fun _ h => h
      · exact insertFile_subset _ _
    exact List.Subset.trans h1 (ih (if l.trim = "" then acc else insertFile l.trim acc))

/-- loadCache only grows the in-memory set. -/
theorem loadCache_subset (st : FetcherState) :
    st.downloadedFiles ⊆ (loadCache st).downloadedFiles := by
  unfold loadCache
  split
  · exact fun _ h => h
  · exact loadFold_subset _ _

/-- loadCache leaves the directory listing untouched. -/
theorem loadCache_storage (st : FetcherState) : (loadCache st).storage = st.storage := by
  unfold loadCache
  split <;> rfl

/-- The directory-scan fold only grows the accumulated set. -/
theorem syncFold_subset (entries : List DirEntry) (acc : List String) (n : Nat) :
    acc ⊆ (entries.foldl syncStep (acc, n)).1 := by
  induction entries generalizing acc n with
  | nil => exact fun _ h => h
  | cons e es ih =>
    rw [List.foldl_cons]
    have h1 : acc ⊆ (syncStep (acc, n) e).1 := by
      unfold syncStep
      split
      · exact fun _ h => h
      · split
        · exact fun _ h => h
        · exact fun g hg => List.mem_append_left _ hg
    exact List.Subset.trans h1 (ih (syncStep (acc, n) e).1 (syncStep (acc, n) e).2)

/-- Every plain file visited by the directory scan ends up in the set. -/
theorem syncFold_mem (entries : List DirEntry) (e : DirEntry) (hd : e.isDir = false) :
    ∀ (acc : List String) (n : Nat), e ∈ entries →
      e.name ∈ (entries.foldl syncStep (acc, n)).1 := by
  induction entries with
  | nil => intro acc n he; cases he
  | cons x xs ih =>
    intro acc n he
    rw [List.foldl_cons]
    rcases List.mem_cons.mp he with rfl | hx
    · have hmem : e.name ∈ (syncStep (acc, n) e).1 := by
        unfold syncStep
        rw [hd]
        simp only [Bool.false_eq_true, if_false]
        split
        · rename_i hc
          exact List.mem_of_elem_eq_true hc
        · exact List.mem_append_right _ (List.mem_singleton.mpr rfl)
      exact syncFold_subset xs (syncStep (acc, n) e).1 (syncStep (acc, n) e).2 hmem
    · exact ih (syncStep (acc, n) x).1 (syncStep (acc, n) x).2 hx

/-- The directory-scan counter never decreases. -/
theorem syncFold_count_le (entries : List DirEntry) (acc : List String) (n : Nat) :
    n ≤ (entries.foldl syncStep (acc, n)).2 := by
  induction entries generalizing acc n with
  | nil => exact Nat.le_refl n
  | cons x xs ih =>
    show n ≤ (xs.foldl syncStep (syncStep (acc, n) x)).2
    have hstep : n ≤ (syncStep (acc, n) x).2 := by
      unfold syncStep
      split
      · exact Nat.le_refl n
      · split
        · exact Nat.le_refl n
        · exact Nat.le_succ n
    have := ih (syncStep (acc, n) x).1 (syncStep (acc, n) x).2
    calc n ≤ (syncStep (acc, n) x).2 := hstep
      _ ≤ _ := by simpa using this

/-- When the directory scan added nothing, the set is unchanged. -/
theorem syncFold_eq_of_count (entries : List DirEntry) (acc : List String) (n : Nat)
    (h : (entries.foldl syncStep (acc, n)).2 = n) :
    (entries.foldl syncStep (acc, n)).1 = acc := by
  induction entries generalizing acc n with
  | nil => rfl
  | cons x xs ih =>
    have hx : xs.foldl syncStep (syncStep (acc, n) x) = xs.foldl syncStep (acc, n) ∨
        (syncStep (acc, n) x) = (acc ++ [x.name], n + 1) := by
      unfold syncStep
      split
      · exact Or.inl rfl
      · split
        · exact Or.inl rfl
        · exact Or.inr rfl
    rcases hx with hx | hx
    · have h2 : (xs.foldl syncStep (acc, n)).2 = n := by
        have : (List.foldl syncStep (syncStep (acc, n) x) xs).2 = n := h
        rwa [hx] at this
      have := ih acc n h2
      show (xs.foldl syncStep (syncStep (acc, n) x)).1 = acc
      rw [hx]
      exact this
    · exfalso
      have hle := syncFold_count_le xs (acc ++ [x.name]) (n + 1)
      have : (List.foldl syncStep (syncStep (acc, n) x) xs).2 = n := h
      rw [hx] at this
      omega

/-- Sanity check of the hash embedding against the FIPS 180-4 test vector. -/
theorem sha256hex_known_answer :
    sha256hex "abc" = "ba7816bf8f01cfea414140de5dae2223b00361a396177a9cb410ff61f20015ad" := by
  decide

/-- Each cache operation only grows the in-memory set. -/
theorem applyOp_subset (env : Env) (st : FetcherState) (op : CacheOp) :
    st.downloadedFiles ⊆ (applyOp env st op).downloadedFiles := by
  cases op with
  | load => exact loadCache_subset st
  | reconcile =>
    show st.downloadedFiles ⊆ (syncCacheFromDirectory env st).state.downloadedFiles
    unfold syncCacheFromDirectory
    dsimp only
    split
    · rw [saveCache_files]
      exact syncFold_subset _ _ _
    · exact syncFold_subset _ _ _
  | containsQuery f => exact fun _ h => h
  | record f =>
    show st.downloadedFiles ⊆ (markDownloaded env st f).state.downloadedFiles
    rw [markDownloaded_files]
    exact insertFile_subset _ _

/-- C8: over any sequence of cache operations (load, reconcile, contains,
record) in one run, a filename in the in-memory cache stays in it: the set
only grows and no operation removes an entry. -/
theorem cache_monotonicity :
    ∀ (env : Env) (ops : List CacheOp) (st : FetcherState) (f : String),
      f ∈ st.downloadedFiles → f ∈ (applyOps env ops st).downloadedFiles := by
  intro env ops
  induction ops with
  | nil => exact fun st f h => h
  | cons op rest ih =>
    intro st f h
    exact ih (applyOp env st op) f (applyOp_subset env st op h)

/-- Witness for C8 at a concrete state and operation sequence. -/
theorem cache_monotonicity_witness :
    "a" ∈ (applyOps env0 [CacheOp.record "b", CacheOp.reconcile] ⟨["a"], [], none, "d", 0⟩).downloadedFiles :=
  cache_monotonicity env0 [CacheOp.record "b", CacheOp.reconcile] ⟨["a"], [], none, "d", 0⟩ "a"
    (by decide)

/-- C9: after a successful markDownloaded the persisted listing is exactly
the in-memory set (each filename once), rewritten wholesale, and the set
gained exactly the recorded filename. -/
theorem persisted_listing_matches_memory :
    ∀ (env : Env) (st : FetcherState) (f : String),
      st.downloadedFiles.Nodup →
      (markDownloaded env st f).err = none →
      (markDownloaded env st f).state.cacheFileContents =
          some ((markDownloaded env st f).state.downloadedFiles) ∧
        (markDownloaded env st f).state.downloadedFiles.Nodup ∧
        (∀ g, g ∈ (markDownloaded env st f).state.downloadedFiles ↔
          g = f ∨ g ∈ st.downloadedFiles) := by
  intro env st f hnd herr
  unfold markDownloaded saveCache at herr ⊢
  by_cases hs : env.save st.tick = true
  · simp only [hs, if_true] at herr ⊢
    exact ⟨by trivial, insertFile_nodup f _ hnd, fun g => mem_insertFile f g _⟩
  · simp only [hs, if_false] at herr
    cases herr

/-- Witness for C9 at a concrete state and filename. -/
theorem persisted_listing_matches_memory_witness :
    (markDownloaded env0 ⟨["a"], [], none, "d", 0⟩ "b").state.cacheFileContents =
        some ((markDownloaded env0 ⟨["a"], [], none, "d", 0⟩ "b").state.downloadedFiles) ∧
      (markDownloaded env0 ⟨["a"], [], none, "d", 0⟩ "b").state.downloadedFiles.Nodup ∧
      (∀ g, g ∈ (markDownloaded env0 ⟨["a"], [], none, "d", 0⟩ "b").state.downloadedFiles ↔
        g = "b" ∨ g ∈ (["a"] : List String)) :=
  persisted_listing_matches_memory env0 ⟨["a"], [], none, "d", 0⟩ "b" (by decide) (by decide)

/-- C10: a non-positive download limit makes FetchAndDownload return at
once: no feed request, no retrieval, no state change, no error. -/
theorem nonpositive_budget_no_requests :
    ∀ (env : Env) (limit : Int) (fuel : Nat) (st : FetcherState),
      limit ≤ 0 →
      FetchAndDownload env limit fuel st = ⟨.ok (), 0, st, []⟩ := by
  intro env limit fuel st h
  unfold FetchAndDownload
  cases fuel with
  | zero => rfl
  | succ n =>
    unfold fetchLoop
    have hlt : ¬ ((0 : Int) < limit) := by omega
    simp [hlt]

/-- Witness for C10 at limit zero. -/
theorem nonpositive_budget_no_requests_witness :
    FetchAndDownload env0 0 3 st0 = ⟨.ok (), 0, st0, []⟩ :=
  nonpositive_budget_no_requests env0 0 3 st0 (by decide)

/-- C2: a cache hit performs no network request and no subprocess
invocation, leaves the whole state (cache and storage) unchanged, and
returns count 0 with no error, for both retrievers. -/
theorem cache_hit_short_circuit :
    ∀ (env : Env) (st : FetcherState) (url mediaType : String) (v : EmbedVideoView),
      (isDownloaded st (downloadFileFilename url mediaType) = true →
        downloadFile env st url mediaType = ⟨0, none, st, []⟩) ∧
      (isDownloaded st (sha256hex v.playlist ++ ".mp4") = true →
        downloadVideo env st v = ⟨0, none, st, []⟩) := by
  intro env st url mediaType v
  constructor
  · intro h
    unfold downloadFile
    simp [h]
  · intro h
    unfold downloadVideo
    by_cases hp : v.playlist = ""
    · simp [hp]
    · simp [hp, h]

/-- Witness for C2 at a concrete cached image URL and video playlist. -/
theorem cache_hit_short_circuit_witness :
    isDownloaded hitSt (downloadFileFilename "http://x/a.png" "image") = true ∧
      downloadFile env0 hitSt "http://x/a.png" "image" = ⟨0, none, hitSt, []⟩ ∧
      downloadVideo env0 hitSt ⟨"v1"⟩ = ⟨0, none, hitSt, []⟩ := by
  have h1 : isDownloaded hitSt (downloadFileFilename "http://x/a.png" "image") = true := by
    decide
  have h2 : isDownloaded hitSt (sha256hex "v1" ++ ".mp4") = true := by
    decide
  exact ⟨h1, (cache_hit_short_circuit env0 hitSt "http://x/a.png" "image" ⟨"v1"⟩).1 h1,
    (cache_hit_short_circuit env0 hitSt "http://x/a.png" "image" ⟨"v1"⟩).2 h2⟩

/-- Behaviour of syncCacheFromDirectory: the set becomes the scan result,
the effects are the directory read and possibly one cache write, and a
successful run that changed the set persisted it. -/
theorem sync_spec (env : Env) (st : FetcherState) :
    (syncCacheFromDirectory env st).state.downloadedFiles =
        (st.storage.foldl syncStep (st.downloadedFiles, 0)).1 ∧
      ((syncCacheFromDirectory env st).effects = [.readDir] ∨
        (syncCacheFromDirectory env st).effects = [.readDir, .saveCacheWrite]) ∧
      ((syncCacheFromDirectory env st).err = none →
        (st.storage.foldl syncStep (st.downloadedFiles, 0)).1 ≠ st.downloadedFiles →
        (syncCacheFromDirectory env st).state.cacheFileContents =
          some (st.storage.foldl syncStep (st.downloadedFiles, 0)).1) := by
  unfold syncCacheFromDirectory
  dsimp only
  split
  · rename_i hpos
    unfold saveCache
    by_cases hs : env.save st.tick = true
    · simp only [hs, if_true]
      exact ⟨by trivial, Or.inr (by trivial), fun _ _ => by trivial⟩
    · simp only [hs, if_false]
      exact ⟨by trivial, Or.inr (by trivial), fun h _ => by simp at h⟩
  · rename_i hpos
    refine ⟨rfl, Or.inl rfl, fun _ hne => ?_⟩
    exfalso
    have hz : (st.storage.foldl syncStep (st.downloadedFiles, 0)).2 = 0 := by omega
    exact hne (syncFold_eq_of_count st.storage st.downloadedFiles 0 hz)

/-- C7: after startup cache load and directory reconciliation, every plain
file of the storage directory is in the cache (also when the persisted
listing is missing), no media retrieval happened, and when reconciliation
added anything the full set was persisted immediately. -/
theorem reconciliation_self_healing :
    ∀ (env : Env) (st : FetcherState) (e : DirEntry),
      e ∈ st.storage → e.isDir = false →
      (initCache env st).err = none →
      e.name ∈ (initCache env st).state.downloadedFiles ∧
        ((initCache env st).effects = [.readDir] ∨
          (initCache env st).effects = [.readDir, .saveCacheWrite]) ∧
        ((initCache env st).state.downloadedFiles ≠ (loadCache st).downloadedFiles →
          (initCache env st).state.cacheFileContents =
            some ((initCache env st).state.downloadedFiles)) := by
  intro env st e he hd herr
  have he1 : e ∈ (loadCache st).storage := by rw [loadCache_storage]; exact he
  have hspec := sync_spec env (loadCache st)
  have hfiles := hspec.1
  refine ⟨?_, hspec.2.1, ?_⟩
  · show e.name ∈ (syncCacheFromDirectory env (loadCache st)).state.downloadedFiles
    rw [hfiles]
    exact syncFold_mem (loadCache st).storage e hd _ 0 he1
  · intro hne
    have hne2 : (List.foldl syncStep ((loadCache st).downloadedFiles, 0) (loadCache st).storage).1 ≠
        (loadCache st).downloadedFiles := by
      intro hcontra
      apply hne
      show (syncCacheFromDirectory env (loadCache st)).state.downloadedFiles = _
      rw [hfiles, hcontra]
    show (syncCacheFromDirectory env (loadCache st)).state.cacheFileContents =
      some ((syncCacheFromDirectory env (loadCache st)).state.downloadedFiles)
    rw [hfiles]
    exact hspec.2.2 herr hne2

/-- Witness for C7: missing listing, one plain file in the directory. -/
theorem reconciliation_self_healing_witness :
    "abc123.png" ∈ (initCache env0 dirOnlySt).state.downloadedFiles :=
  (reconciliation_self_healing env0 dirOnlySt ⟨"abc123.png", false⟩
    (by decide) (by decide) (by decide)).1

/-- A direct fetch retrieves zero or one file. -/
theorem downloadFile_count (env : Env) (st : FetcherState) (url t : String) :
    0 ≤ (downloadFile env st url t).count ∧ (downloadFile env st url t).count ≤ 1 := by
  unfold downloadFile
  dsimp only
  split
  · dsimp only; omega
  · split <;> dsimp only <;> omega

/-- A video fetch retrieves zero or one file. -/
theorem downloadVideo_count (env : Env) (st : FetcherState) (v : EmbedVideoView) :
    0 ≤ (downloadVideo env st v).count ∧ (downloadVideo env st v).count ≤ 1 := by
  unfold downloadVideo
  dsimp only
  split
  · dsimp only; omega
  · split
    · dsimp only; omega
    · split <;> dsimp only <;> omega

/-- A failed direct fetch contributes zero to the count. -/
theorem downloadFile_err_count (env : Env) (st : FetcherState) (url t : String) :
    (downloadFile env st url t).err ≠ none → (downloadFile env st url t).count = 0 := by
  unfold downloadFile
  dsimp only
  split
  · intro _; rfl
  · split <;> intro h <;> first | rfl | exact absurd rfl h

/-- A failed video fetch contributes zero to the count. -/
theorem downloadVideo_err_count (env : Env) (st : FetcherState) (v : EmbedVideoView) :
    (downloadVideo env st v).err ≠ none → (downloadVideo env st v).count = 0 := by
  unfold downloadVideo
  dsimp only
  split
  · intro _; rfl
  · split
    · intro _; rfl
    · split <;> intro h <;> first | rfl | exact absurd rfl h

/-- The image loop's count never drops below its start and never passes the
limit. -/
theorem downloadImagesLoop_count (env : Env) (limit : Int) :
    ∀ (imgs : List ViewImage) (count : Int) (st : FetcherState),
      count ≤ (downloadImagesLoop env limit imgs count st).count ∧
        (count ≤ limit → (downloadImagesLoop env limit imgs count st).count ≤ limit) := by
  intro imgs
  induction imgs with
  | nil => intro count st; exact ⟨le_refl _, fun h => h⟩
  | cons img rest ih =>
    intro count st
    simp only [downloadImagesLoop]
    by_cases hl : limit ≤ count
    · rw [if_pos hl]
      exact ⟨le_refl _, fun h => h⟩
    · rw [if_neg hl]
      have hf := downloadFile_count env st img.fullsize "image"
      rcases herr : (downloadFile env st img.fullsize "image").err with _ | e
      · simp only [herr]
        have hih := ih (count + (downloadFile env st img.fullsize "image").count)
          (downloadFile env st img.fullsize "image").state
        refine ⟨?_, fun hle => ?_⟩ <;> try dsimp only
        · omega
        · have := hih.2 (by omega)
          omega
      · simp only [herr]
        exact ⟨le_refl _, fun h => h⟩

/-- downloadImages retrieves between zero and limit files. -/
theorem downloadImages_count (env : Env) (imgs : List ViewImage) (limit : Int)
    (st : FetcherState) :
    0 ≤ (downloadImages env imgs limit st).count ∧
      (0 ≤ limit → (downloadImages env imgs limit st).count ≤ limit) :=
  downloadImagesLoop_count env limit imgs 0 st

/-- The images branch of the per-post body respects the budget. -/
theorem doImages_count (env : Env) (limit count : Int) (st : FetcherState)
    (iv : Option EmbedImagesView) :
    count ≤ (doImages env limit count st iv).count ∧
      (count ≤ limit → (doImages env limit count st iv).count ≤ limit) := by
  cases iv with
  | none => exact ⟨le_refl _, fun h => h⟩
  | some iv2 =>
    simp only [doImages]
    have h := downloadImages_count env iv2.images (limit - count) st
    refine ⟨?_, fun hle => ?_⟩ <;> try dsimp only
    · omega
    · have := h.2 (by omega)
      omega

/-- The video branch of the per-post body respects the budget. -/
theorem doVideo_count (env : Env) (limit count : Int) (st : FetcherState)
    (v : Option EmbedVideoView) :
    count ≤ (doVideo env limit count st v).count ∧
      (count ≤ limit → (doVideo env limit count st v).count ≤ limit) := by
  cases v with
  | none => exact ⟨le_refl _, fun h => h⟩
  | some v2 =>
    simp only [doVideo]
    by_cases hlt : count < limit
    · rw [if_pos hlt]
      have h := downloadVideo_count env st v2
      refine ⟨?_, fun hle => ?_⟩ <;> try dsimp only
      · omega
      · omega
    · rw [if_neg hlt]
      exact ⟨le_refl _, fun h => h⟩

/-- The record-with-media branch of the per-post body respects the budget. -/
theorem doRecordWithMedia_count (env : Env) (limit count : Int) (st : FetcherState)
    (rwm : Option EmbedRecordWithMediaView) :
    count ≤ (doRecordWithMedia env limit count st rwm).count ∧
      (count ≤ limit → (doRecordWithMedia env limit count st rwm).count ≤ limit) := by
  cases rwm with
  | none => exact ⟨le_refl _, fun h => h⟩
  | some rwm2 =>
    simp only [doRecordWithMedia]
    by_cases hlt : count < limit
    · rw [if_pos hlt]
      rcases hm : rwm2.media with _ | m
      · exact ⟨le_refl _, fun h => h⟩
      · have h1 := doImages_count env limit count st m.embedImagesView
        have h2 := doVideo_count env limit (doImages env limit count st m.embedImagesView).count
          (doImages env limit count st m.embedImagesView).state m.embedVideoView
        refine ⟨?_, fun hle => ?_⟩ <;> try dsimp only
        · omega
        · have := h2.2 (h1.2 hle)
          omega
    · rw [if_neg hlt]
      rcases hm : rwm2.media with _ | m <;> exact ⟨le_refl _, fun h => h⟩

/-- The per-post body respects the budget. -/
theorem processPost_count (env : Env) (limit count : Int) (st : FetcherState) (p : Post) :
    count ≤ (processPost env limit count st p).count ∧
      (count ≤ limit → (processPost env limit count st p).count ≤ limit) := by
  rcases hpe : p.embed with _ | e
  · simp only [processPost, hpe]
    exact ⟨le_refl _, fun h => h⟩
  · simp only [processPost, hpe]
    have h1 := doImages_count env limit count st e.embedImagesView
    have h2 := doVideo_count env limit (doImages env limit count st e.embedImagesView).count
      (doImages env limit count st e.embedImagesView).state e.embedVideoView
    have h3 := doRecordWithMedia_count env limit
      (doVideo env limit (doImages env limit count st e.embedImagesView).count
        (doImages env limit count st e.embedImagesView).state e.embedVideoView).count
      (doVideo env limit (doImages env limit count st e.embedImagesView).count
        (doImages env limit count st e.embedImagesView).state e.embedVideoView).state
      e.embedRecordWithMediaView
    refine ⟨?_, fun hle => ?_⟩ <;> try dsimp only
    · omega
    · have := h3.2 (h2.2 (h1.2 hle))
      omega

/-- The per-page post loop respects the budget. -/
theorem processPosts_count (env : Env) (limit : Int) :
    ∀ (posts : List Post) (count : Int) (st : FetcherState),
      count ≤ (processPosts env limit posts count st).count ∧
        (count ≤ limit → (processPosts env limit posts count st).count ≤ limit) := by
  intro posts
  induction posts with
  | nil => intro count st; exact ⟨le_refl _, fun h => h⟩
  | cons p rest ih =>
    intro count st
    simp only [processPosts]
    by_cases hl : limit ≤ count
    · rw [if_pos hl]
      exact ⟨le_refl _, fun h => h⟩
    · rw [if_neg hl]
      have hp := processPost_count env limit count st p
      have hih := ih (processPost env limit count st p).count
        (processPost env limit count st p).state
      refine ⟨?_, fun hle => ?_⟩ <;> try dsimp only
      · omega
      · have := hih.2 (hp.2 (by omega))
        omega

/-- The page loop never exceeds the budget. -/
theorem fetchLoop_le (env : Env) (limit : Int) :
    ∀ (fuel : Nat) (count : Int) (cursor : String) (st : FetcherState),
      count ≤ limit → (fetchLoop env limit fuel count cursor st).count ≤ limit := by
  intro fuel
  induction fuel with
  | zero => intro count cursor st h; exact h
  | succ n ih =>
    intro count cursor st h
    unfold fetchLoop
    by_cases hc : count < limit
    · rw [if_pos hc]
      rcases hfeed : env.feed st.tick cursor with e | resp
      · exact h
      · dsimp only
        by_cases hemp : resp.feed.isEmpty = true
        · rw [if_pos hemp]
          exact h
        · rw [if_neg hemp]
          have hp := processPosts_count env limit resp.feed count {st with tick := st.tick + 1}
          by_cases hdone :
              (processPosts env limit resp.feed count {st with tick := st.tick + 1}).done = true
          · rw [if_pos hdone]
            exact hp.2 h
          · rw [if_neg hdone]
            rcases hcur : resp.cursor with _ | c
            · exact hp.2 h
            · dsimp only
              by_cases hce : c = ""
              · rw [if_pos hce]
                exact hp.2 h
              · rw [if_neg hce]
                exact ih (processPosts env limit resp.feed count
                    {st with tick := st.tick + 1}).count c
                  (processPosts env limit resp.feed count
                    {st with tick := st.tick + 1}).state (hp.2 h)
    · rw [if_neg hc]
      exact h

/-- C1: a backfill run with budget N at least zero counts at most N new
retrievals into downloadCount, over every feed, cache and failure mix. -/
theorem budget_respected :
    ∀ (env : Env) (limit : Int) (fuel : Nat) (st : FetcherState),
      0 ≤ limit → (FetchAndDownload env limit fuel st).count ≤ limit := by
  intro env limit fuel st h
  exact fetchLoop_le env limit fuel 0 "" st h

/-- Witness for C1 at a concrete budget and environment. -/
theorem budget_respected_witness :
    (FetchAndDownload env0 5 3 st0).count ≤ 5 :=
  budget_respected env0 5 3 st0 (by decide)

/-- Is the effect a notification push? -/
def isNotifyEffect : Effect → Bool
  | .httpPost _ _ => true
  | _ => false

/-- C3 counterexample: with one item carrying images u1 and u2 and the
retrieval of u1 failing, u2 is never attempted, while the walk itself does
not abort and counts zero. -/
theorem failed_image_rest_skipped :
    Effect.httpGet "u1" ∈ (FetchAndDownload badFirstImageEnv 10 1 st0).effects ∧
      Effect.httpGet "u2" ∉ (FetchAndDownload badFirstImageEnv 10 1 st0).effects ∧
      (FetchAndDownload badFirstImageEnv 10 1 st0).res = .ok () ∧
      (FetchAndDownload badFirstImageEnv 10 1 st0).count = 0 :=
  ⟨by decide, by decide, by decide, by decide⟩

/-- C3 amended: a failed retrieval contributes zero, only feed-page fetch
errors abort the walk, and after a failing image download the remaining
images of the same image-set are skipped. -/
theorem retrieval_failure_resilience :
    (∀ (env : Env) (st : FetcherState) (url t : String),
      (downloadFile env st url t).err ≠ none → (downloadFile env st url t).count = 0) ∧
      (∀ (env : Env) (st : FetcherState) (v : EmbedVideoView),
        (downloadVideo env st v).err ≠ none → (downloadVideo env st v).count = 0) ∧
      (∀ (env : Env) (limit : Int) (fuel : Nat) (count : Int) (cursor : String)
        (st : FetcherState) (e : String),
        (fetchLoop env limit fuel count cursor st).res = .error e →
        ∃ k c e0, env.feed k c = .error e0 ∧ e = "failed to fetch likes: " ++ e0) ∧
      (∀ (env : Env) (limit : Int) (img : ViewImage) (rest : List ViewImage)
        (count : Int) (st : FetcherState) (e : String),
        ¬ limit ≤ count →
        (downloadFile env st img.fullsize "image").err = some e →
        downloadImagesLoop env limit (img :: rest) count st =
          ⟨count, some e, (downloadFile env st img.fullsize "image").state,
            (downloadFile env st img.fullsize "image").effects⟩) := by
  refine ⟨downloadFile_err_count, downloadVideo_err_count, ?_, ?_⟩
  · intro env limit fuel
    induction fuel with
    | zero =>
      intro count cursor st e h
      cases h
    | succ n ih =>
      intro count cursor st e h
      unfold fetchLoop at h
      by_cases hc : count < limit
      · rw [if_pos hc] at h
        rcases hfeed : env.feed st.tick cursor with e0 | resp
        · rw [hfeed] at h
          dsimp only at h
          refine ⟨st.tick, cursor, e0, hfeed, ?_⟩
          cases h
          rfl
        · rw [hfeed] at h
          dsimp only at h
          by_cases hemp : resp.feed.isEmpty = true
          · rw [if_pos hemp] at h
            cases h
          · rw [if_neg hemp] at h
            by_cases hdone :
                (processPosts env limit resp.feed count {st with tick := st.tick + 1}).done = true
            · rw [if_pos hdone] at h
              cases h
            · rw [if_neg hdone] at h
              rcases hcur : resp.cursor with _ | c
              · rw [hcur] at h
                cases h
              · rw [hcur] at h
                dsimp only at h
                by_cases hce : c = ""
                · rw [if_pos hce] at h
                  cases h
                · rw [if_neg hce] at h
                  exact ih _ _ _ _ h
      · rw [if_neg hc] at h
        cases h
  · intro env limit img rest count st e hlt hde
    simp only [downloadImagesLoop]
    rw [if_neg hlt, hde]

/-- Witness for the amended C3 at a failing concrete retrieval. -/
theorem retrieval_failure_resilience_witness :
    (downloadFile badFirstImageEnv st0 "u1" "image").count = 0 :=
  retrieval_failure_resilience.1 badFirstImageEnv st0 "u1" "image" (by decide)

set_option maxRecDepth 8192 in
/-- C4 counterexample: an item whose image retrieval succeeds and whose
video retrieval fails yields a positive count and an error, and no
notification is emitted. -/
theorem partial_failure_suppresses_notification :
    0 < (downloadPostMedia ffmpegFailEnv st0 imageAndVideoPost.embed).count ∧
      (downloadPostMedia ffmpegFailEnv st0 imageAndVideoPost.embed).err = some "ffmpeg failed" ∧
      ((handleNewPost ffmpegFailEnv "topic" imageAndVideoPost st0).2.any isNotifyEffect) = false :=
  ⟨by decide, by decide, by decide⟩

/-- C4 amended: for a newly-seen item, a notification carrying the count is
emitted exactly when the item's media processing returned no error and a
positive count (and a topic is configured); on any error no notification is
emitted even when earlier retrievals of the item succeeded. -/
theorem notification_on_clean_success :
    ∀ (env : Env) (topic : String) (p : Post) (st : FetcherState),
      ((downloadPostMedia env st p.embed).err = none →
        0 < (downloadPostMedia env st p.embed).count →
        topic ≠ "" →
        (handleNewPost env topic p st).2 =
          (downloadPostMedia env st p.embed).effects ++
            [.httpPost ("https://ntfy.sh/" ++ topic)
              ("Downloaded " ++ toString (downloadPostMedia env st p.embed).count ++
                " file(s) from new like")]) ∧
      ((downloadPostMedia env st p.embed).err ≠ none →
        (handleNewPost env topic p st).2 = (downloadPostMedia env st p.embed).effects) := by
  intro env topic p st
  constructor
  · intro he hc ht
    unfold handleNewPost
    simp only [he]
    rw [if_pos hc]
    unfold notifyEffects
    rw [if_neg ht]
  · intro he
    unfold handleNewPost
    rcases herr2 : (downloadPostMedia env st p.embed).err with _ | er
    · exact absurd herr2 he
    · simp only [herr2]

/-- A newly-liked post with a single image, for the C4 witness. -/
def witnessPost : Post := ⟨"w", some ⟨some ⟨[⟨"wu"⟩]⟩, none, none⟩⟩

/-- Witness for the amended C4 at a cleanly succeeding item. -/
theorem notification_on_clean_success_witness :
    (handleNewPost env0 "t" witnessPost st0).2 =
      (downloadPostMedia env0 st0 witnessPost.embed).effects ++
        [.httpPost ("https://ntfy.sh/" ++ "t")
          ("Downloaded " ++ toString (downloadPostMedia env0 st0 witnessPost.embed).count ++
            " file(s) from new like")] :=
  (notification_on_clean_success env0 "t" witnessPost st0).1 (by decide) (by decide) (by decide)

/-- C5 counterexample: for a URL whose path is empty, the code's extension
is filepath.Ext of the whole URL (".com"), not the path-based default the
claim gives (".png"), so the resolved filename differs from the claimed one. -/
theorem extension_ignores_url_path :
    specResolveExt "http://example.com" "image" = ".png" ∧
      resolveExt "http://example.com" "image" = ".com" ∧
      downloadFileFilename "http://example.com" "image" ≠
        sha256hex "http://example.com" ++ specResolveExt "http://example.com" "image" :=
  ⟨by decide, by decide, by decide⟩

/-- C5 amended: the extension comes from filepath.Ext of the whole URL
string (the suffix from the last dot after the last slash, including host
and query parts); only when that is empty do the m3u8 marker and the
kind-specific defaults apply; the filename is the hex SHA-256 of the URL
bytes concatenated with that extension. -/
theorem extension_resolution :
    ∀ (url mediaType : String),
      (goExt url ≠ "" → downloadFileFilename url mediaType = sha256hex url ++ goExt url) ∧
        (goExt url = "" → strContains url "m3u8" = true →
          downloadFileFilename url mediaType = sha256hex url ++ ".m3u8") ∧
        (goExt url = "" → strContains url "m3u8" = false → mediaType = "image" →
          downloadFileFilename url mediaType = sha256hex url ++ ".png") ∧
        (goExt url = "" → strContains url "m3u8" = false → mediaType ≠ "image" →
          downloadFileFilename url mediaType = sha256hex url ++ ".mp4") := by
  intro url t
  refine ⟨fun h => ?_, fun h hm => ?_, fun h hm hi => ?_, fun h hm hi => ?_⟩ <;>
    simp only [downloadFileFilename, resolveExt]
  · rw [if_neg h]
  · rw [if_pos h, if_pos hm]
  · rw [if_pos h, if_neg (by simp [hm]), if_pos hi]
  · rw [if_pos h, if_neg (by simp [hm]), if_neg hi]

/-- Witness for the amended C5 at a URL carrying an extension. -/
theorem extension_resolution_witness :
    downloadFileFilename "http://x/a.png" "image" =
      sha256hex "http://x/a.png" ++ goExt "http://x/a.png" :=
  (extension_resolution "http://x/a.png" "image").1 (by decide)

/-- Membership in the seeding fold over a page. -/
theorem mem_seedFold (page : List Post) :
    ∀ (acc : List String) (u : String),
      u ∈ page.foldl (fun s p => if p.uri ∈ s then s else p.uri :: s) acc ↔
        u ∈ acc ∨ u ∈ page.map Post.uri := by
  induction page with
  | nil => intro acc u; simp
  | cons p ps ih =>
    intro acc u
    rw [List.foldl_cons]
    by_cases hp : p.uri ∈ acc
    · rw [if_pos hp, ih]
      simp only [List.map_cons, List.mem_cons]
      constructor
      · rintro (h | h)
        · exact Or.inl h
        · exact Or.inr (Or.inr h)
      · rintro (h | rfl | h)
        · exact Or.inl h
        · exact Or.inl hp
        · exact Or.inr h
    · rw [if_neg hp, ih]
      simp only [List.mem_cons, List.map_cons]
      constructor
      · rintro ((rfl | h) | h)
        · exact Or.inr (Or.inl rfl)
        · exact Or.inl h
        · exact Or.inr (Or.inr h)
      · rintro (h | rfl | h)
        · exact Or.inl (Or.inr h)
        · exact Or.inl (Or.inl rfl)
        · exact Or.inr h

/-- The seeded seen set holds exactly the page's item URIs. -/
theorem mem_watchSeed (page : List Post) (u : String) :
    u ∈ watchSeed page ↔ u ∈ page.map Post.uri := by
  unfold watchSeed
  rw [mem_seedFold]
  simp

/-- A poll cycle only grows the seen set. -/
theorem processNewPosts_seen_subset (env : Env) (topic : String) :
    ∀ (posts : List Post) (seen : List String) (st : FetcherState),
      seen ⊆ (processNewPosts env topic posts seen st).seen := by
  intro posts
  induction posts with
  | nil => intro seen st; exact fun _ h => h
  | cons p rest ih =>
    intro seen st
    simp only [processNewPosts]
    by_cases hp : p.uri ∈ seen
    · rw [if_pos hp]
      exact ih seen st
    · rw [if_neg hp]
      dsimp only
      intro g hg
      exact ih (p.uri :: seen) (handleNewPost env topic p st).1 (List.mem_cons_of_mem _ hg)

/-- After a poll cycle the seen set holds the old entries and the page's
URIs. -/
theorem processNewPosts_mem_seen (env : Env) (topic : String) :
    ∀ (posts : List Post) (seen : List String) (st : FetcherState) (u : String),
      u ∈ (processNewPosts env topic posts seen st).seen ↔
        u ∈ seen ∨ u ∈ posts.map Post.uri := by
  intro posts
  induction posts with
  | nil => intro seen st u; simp [processNewPosts]
  | cons p rest ih =>
    intro seen st u
    simp only [processNewPosts]
    by_cases hp : p.uri ∈ seen
    · rw [if_pos hp, ih]
      simp only [List.map_cons, List.mem_cons]
      constructor
      · rintro (h | h)
        · exact Or.inl h
        · exact Or.inr (Or.inr h)
      · rintro (h | rfl | h)
        · exact Or.inl h
        · exact Or.inl hp
        · exact Or.inr h
    · rw [if_neg hp]
      dsimp only
      rw [ih]
      simp only [List.mem_cons, List.map_cons]
      constructor
      · rintro ((rfl | h) | h)
        · exact Or.inr (Or.inl rfl)
        · exact Or.inl h
        · exact Or.inr (Or.inr h)
      · rintro (h | rfl | h)
        · exact Or.inl (Or.inr h)
        · exact Or.inl (Or.inl rfl)
        · exact Or.inr h

/-- A poll cycle treats exactly the page items outside the seen set as new. -/
theorem processNewPosts_news (env : Env) (topic : String) :
    ∀ (posts : List Post) (seen : List String) (st : FetcherState) (u : String),
      u ∈ (processNewPosts env topic posts seen st).news ↔
        u ∈ posts.map Post.uri ∧ u ∉ seen := by
  intro posts
  induction posts with
  | nil => intro seen st u; simp [processNewPosts]
  | cons p rest ih =>
    intro seen st u
    simp only [processNewPosts]
    by_cases hp : p.uri ∈ seen
    · rw [if_pos hp, ih]
      simp only [List.map_cons, List.mem_cons]
      constructor
      · rintro ⟨h, hn⟩
        exact ⟨Or.inr h, hn⟩
      · rintro ⟨h | h, hn⟩
        · exact absurd (h ▸ hp) hn
        · exact ⟨h, hn⟩
    · rw [if_neg hp]
      dsimp only
      rw [List.mem_cons, ih]
      simp only [List.map_cons, List.mem_cons]
      constructor
      · rintro (rfl | ⟨h, hn⟩)
        · exact ⟨Or.inl rfl, hp⟩
        · refine ⟨Or.inr h, fun hc => hn (Or.inr hc)⟩
      · rintro ⟨h | h, hn⟩
        · exact Or.inl h
        · by_cases hu : u = p.uri
          · exact Or.inl hu
          · exact Or.inr ⟨h, fun hc => by
              rcases hc with h1 | h1
              · exact hu h1
              · exact hn h1⟩

/-- A poll cycle over a page of entirely seen items does nothing. -/
theorem processNewPosts_all_seen (env : Env) (topic : String) :
    ∀ (posts : List Post) (seen : List String) (st : FetcherState),
      (∀ p ∈ posts, p.uri ∈ seen) →
      processNewPosts env topic posts seen st = ⟨seen, st, [], []⟩ := by
  intro posts
  induction posts with
  | nil => intro seen st _; rfl
  | cons p rest ih =>
    intro seen st hall
    simp only [processNewPosts]
    rw [if_pos (hall p (List.mem_cons_self p rest))]
    exact ih seen st (fun q hq => hall q (List.mem_cons_of_mem p hq))

/-- The watch loop only grows the seen set, over any number of cycles. -/
theorem watchLoop_seen_subset (env : Env) (topic : String) :
    ∀ (fuel : Nat) (seen : List String) (st : FetcherState),
      seen ⊆ (watchLoop env topic fuel seen st).1 := by
  intro fuel
  induction fuel with
  | zero => intro seen st; exact fun _ h => h
  | succ n ih =>
    intro seen st
    unfold watchLoop
    rcases hfeed : env.feed st.tick "" with e | resp
    · dsimp only
      exact ih seen {st with tick := st.tick + 1}
    · dsimp only
      intro g hg
      exact ih _ _
        (processNewPosts_seen_subset env topic resp.feed seen {st with tick := st.tick + 1} hg)

/-- C6: after seeding from page P0, a poll over page P1 treats exactly the
items of P1 outside the seen set as new; a second poll over the same P1
treats nothing as new; and the seen set grows monotonically over the cycle
and over the whole loop. -/
theorem watch_mode_novelty :
    ∀ (env env2 : Env) (topic topic2 : String) (P0 P1 : List Post) (st st2 : FetcherState),
      (∀ u, u ∈ (watchCycle env topic P1 (watchSeed P0) st).news ↔
        (u ∈ P1.map Post.uri ∧ ¬ u ∈ watchSeed P0)) ∧
        (∀ u, u ∈ (watchCycle env topic P1 (watchSeed P0) st).seen ↔
          (u ∈ watchSeed P0 ∨ u ∈ P1.map Post.uri)) ∧
        (watchCycle env2 topic2 P1 (watchCycle env topic P1 (watchSeed P0) st).seen st2).news =
          [] ∧
        watchSeed P0 ⊆ (watchCycle env topic P1 (watchSeed P0) st).seen ∧
        (∀ (fuel : Nat) (seen : List String) (stw : FetcherState),
          seen ⊆ (watchLoop env topic fuel seen stw).1) := by
  intro env env2 topic topic2 P0 P1 st st2
  refine ⟨fun u => processNewPosts_news env topic P1 (watchSeed P0) st u,
    fun u => processNewPosts_mem_seen env topic P1 (watchSeed P0) st u, ?_,
    processNewPosts_seen_subset env topic P1 (watchSeed P0) st,
    watchLoop_seen_subset env topic⟩
  have hall : ∀ p ∈ P1, p.uri ∈ (watchCycle env topic P1 (watchSeed P0) st).seen := by
    intro p hp
    exact (processNewPosts_mem_seen env topic P1 (watchSeed P0) st p.uri).mpr
      (Or.inr (List.mem_map_of_mem Post.uri hp))
  show (processNewPosts env2 topic2 P1 (watchCycle env topic P1 (watchSeed P0) st).seen st2).news = []
  rw [processNewPosts_all_seen env2 topic2 P1 _ st2 hall]

/-- Witness for C6 at the spec's concrete pages: seeding {a,b,c} and then
polling {b,c,d} flags exactly d as new. -/
theorem watch_mode_novelty_witness :
    "d" ∈ (watchCycle env0 "" pageP1 (watchSeed pageP0) st0).news :=
  ((watch_mode_novelty env0 env0 "" "" pageP0 pageP1 st0 st0).1 "d").mpr
    ⟨by decide, by decide⟩
